import Mathlib

/-!
Verification development for the `shy` shell-AI assistant (`src/repl.rs`).

Strings from the Rust source are modelled as `List Char` (`Str`).  Rust's
byte lengths (`str::len`) are modelled as character counts, and Rust's
Unicode whitespace classes (`char::is_whitespace`, regex `\s`, `\d`) are
modelled by their ASCII restrictions (`Char.isWhitespace`, `Char.isDigit`);
all inputs of interest are ASCII.  External collaborators (the filesystem,
process inspection, `serde_json`, the dialoguer prompts) are modelled as
explicit parameters, as the spec's §6 prescribes.
-/

/-- Source-level strings: Rust `&str` / `String` as a list of characters. -/
abbrev Str := List Char

/-- Literal coercion from Lean string literals. -/
def str (s : String) : Str := s.toList

/-- The backtick character (written via its code point to keep source plain). -/
def tickChar : Char := Char.ofNat 96

/-- Rust `char::is_whitespace` (ASCII restriction). -/
def isWs (c : Char) : Bool := c.isWhitespace

/-- `line.starts_with('#')` and friends: test the first character. -/
def startsWithChar (c : Char) (l : Str) : Bool :=
  match l.head? with
  | some a => a = c
  | none => false

/-- Rust `str::starts_with(pre)` / regex literal prefix test. -/
def startsWithS (pre l : Str) : Bool := pre.isPrefixOf l

/-- Rust `str::contains(sub)`: substring occurrence test. -/
def containsSub (needle hay : Str) : Bool :=
  needle.isPrefixOf hay ||
    match hay with
    | [] => false
    | _ :: t => containsSub needle t

/-- Split on `'\n'`, keeping empty segments (auxiliary for `linesStr`). -/
def splitNl : Str → List Str
  | [] => [[]]
  | c :: t =>
    let r := splitNl t
    if c = '\n' then [] :: r
    else
      match r with
      | h :: rest => (c :: h) :: rest
      | [] => [[c]]

/-- Strip one trailing `'\r'` (for a `\r\n` line ending). -/
def stripCr (l : Str) : Str :=
  if l.getLast? = some '\r' then l.dropLast else l

/-- Rust `str::lines`: split at `\n` / `\r\n`; the final line ending is
optional, and a final segment without a line ending keeps a lone `\r`. -/
def linesStr (s : Str) : List Str :=
  if s.isEmpty then []
  else
    let ps := splitNl s
    match ps.getLast? with
    | some [] => (ps.dropLast).map stripCr
    | some lastPiece => (ps.dropLast).map stripCr ++ [lastPiece]
    | none => []

/-- Rust `str::trim`: drop whitespace from both ends. -/
def trim (s : Str) : Str :=
  (((s.dropWhile isWs).reverse).dropWhile isWs).reverse

/-! ## Command-likelihood classifiers (`looks_like_command`,
`looks_like_command_extended`, src/repl.rs 921-982).

Each regex in the Rust pattern arrays is modelled by an equivalent
structural check; the five allow-list regexes `^(ls|cd|...)` etc. are
flattened into one name list (membership order is irrelevant to `any`). -/

/-- Regex character class `[a-zA-Z0-9_-]`. -/
def isWordChar (c : Char) : Bool := c.isAlphanum || c = '_' || c = '-'

/-- The command names of the five allow-list patterns
`^(ls|cd|pwd|...)`, `^(git|npm|...)`, `^(sudo|su|...)`,
`^(systemctl|service|...)`, `^(vim|nano|...)`. -/
def commandNames : List String :=
  ["ls", "cd", "pwd", "mkdir", "rmdir", "rm", "cp", "mv", "cat", "less",
   "more", "head", "tail", "grep", "find", "which", "whereis",
   "git", "npm", "yarn", "cargo", "pip", "docker", "kubectl", "ssh", "scp",
   "rsync", "curl", "wget",
   "sudo", "su", "chmod", "chown", "ps", "kill", "top", "htop", "df", "du",
   "free", "mount", "umount",
   "systemctl", "service", "journalctl", "crontab", "at", "nohup", "screen",
   "tmux",
   "vim", "nano", "emacs", "code", "subl"]

/-- `is_match` of the allow-list patterns: the text starts with one of the
recognized command names. -/
def startsWithAnyName (t : Str) : Bool :=
  commandNames.any (fun n => (str n).isPrefixOf t)

/-- The maximal leading run matching `[a-zA-Z0-9_-]+`. -/
def wordRun (t : Str) : Str := t.takeWhile isWordChar

/-- Regex `^[a-zA-Z0-9_-]+\s+`: a word run followed by whitespace
("generic command with arguments"). -/
def genericWordArg (t : Str) : Bool :=
  !(wordRun t).isEmpty &&
    match (t.drop (wordRun t).length).head? with
    | some c => isWs c
    | none => false

/-- A `'|'` occurs here with a word character somewhere after it
(tail of regex `.*\|.*[a-zA-Z0-9_-]+`). -/
def hasPipeWord : Str → Bool
  | [] => false
  | c :: t => (c = '|' && t.any isWordChar) || hasPipeWord t

/-- Regex `^[a-zA-Z0-9_-]+.*\|.*[a-zA-Z0-9_-]+`: starts with a word
character, and a pipe with a word character after it occurs later
("commands with pipes"). -/
def pipePattern (t : Str) : Bool :=
  (match t.head? with
   | some c => isWordChar c
   | none => false) && hasPipeWord (t.drop 1)

/-- A `'-'` immediately followed by an ASCII letter occurs
(tail of regex `.*-[a-zA-Z]`). -/
def hasDashAlpha : Str → Bool
  | [] => false
  | c :: t =>
    (c = '-' &&
      match t.head? with
      | some d => d.isAlpha
      | none => false) || hasDashAlpha t

/-- Regex `^[a-zA-Z0-9_-]+\s+.*-[a-zA-Z]`: a word run, a whitespace
character, then a flag-like `-x` later ("commands with flags"). -/
def flagPattern (t : Str) : Bool :=
  !(wordRun t).isEmpty &&
    match t.drop (wordRun t).length with
    | c :: rest => isWs c && hasDashAlpha rest
    | [] => false

/-- `looks_like_command` (src/repl.rs 921-947): trims, rejects length
over 200 or embedded newlines, then matches the basic pattern list. -/
def looks_like_command (text : Str) : Bool :=
  let t := trim text
  if 200 < t.length then false
  else if t.contains '\n' then false
  else startsWithAnyName t || genericWordArg t

/-- `looks_like_command_extended` (src/repl.rs 949-982): trims, rejects
length over 500, embedded newlines, or length under 3, then matches the
extended pattern list (adds pipe and flag patterns). -/
def looks_like_command_extended (text : Str) : Bool :=
  let t := trim text
  if 500 < t.length then false
  else if t.contains '\n' then false
  else if t.length < 3 then false
  else startsWithAnyName t || pipePattern t || flagPattern t || genericWordArg t

/-! ## Extraction scanners (`extract_and_store_commands` and
`extract_command_from_description`, src/repl.rs 729-822).

The three regex layers are modelled by deterministic scanners that follow
the leftmost-first, greedy/lazy backtracking semantics of the `regex`
crate on the concrete patterns of the source.  Scanned lines contain no
`'\n'` (they come from `str::lines`), so regex `.` behaves as "any
character" there. -/

/-- One leftmost match attempt of the inline-code regex ``([^`]+)`` at the
head of the string: an opening backtick, a nonempty backtick-free body, a
closing backtick; non-matching positions are skipped one character at a
time.  Every step consumes at least one character, so a fuel equal to the
string length makes the recursion structural without changing the
result. -/
def findInlineF : Nat → Str → List Str
  | 0, _ => []
  | _ + 1, [] => []
  | fuel + 1, c :: t =>
    if c = tickChar then
      let body := t.takeWhile (fun d => d ≠ tickChar)
      if body.isEmpty then findInlineF fuel t
      else if (t.drop body.length).head? = some tickChar then
        body :: findInlineF fuel (t.drop (body.length + 1))
      else findInlineF fuel t
    else findInlineF fuel t

/-- All non-overlapping matches of the inline-code regex, scanning left to
right (`captures_iter`). -/
def findInline (s : Str) : List Str := findInlineF s.length s

/-- One match attempt of the fenced-block regex
```` ```(?:bash|sh|shell)?\n([^`]+)``` ```` at the head of `s`: returns
the captured block body and the remainder after the closing fence.  The
tag alternatives are prefix-disjoint, so the alternation is a cascade of
prefix tests; the greedy `[^`]+` is forced to stop at the first backtick,
which must start the closing fence. -/
def matchBlockAt (s : Str) : Option (Str × Str) :=
  if (str "```").isPrefixOf s then
    let s1 := s.drop 3
    let afterTag : Option Str :=
      if (str "bash\n").isPrefixOf s1 then some (s1.drop 5)
      else if (str "sh\n").isPrefixOf s1 then some (s1.drop 3)
      else if (str "shell\n").isPrefixOf s1 then some (s1.drop 6)
      else if s1.head? = some '\n' then some (s1.drop 1)
      else none
    match afterTag with
    | none => none
    | some s2 =>
      let body := s2.takeWhile (fun d => d ≠ tickChar)
      if body.isEmpty then none
      else if (str "```").isPrefixOf (s2.drop body.length) then
        some (body, (s2.drop body.length).drop 3)
      else none
  else none

/-- All non-overlapping matches of the fenced-block regex, scanning left
to right (`captures_iter` over the response).  A successful match consumes
at least eight characters and a failed position is skipped one character
at a time, so a fuel equal to the string length makes the recursion
structural without changing the result. -/
def findBlocksF : Nat → Str → List Str
  | 0, _ => []
  | _ + 1, [] => []
  | fuel + 1, c :: t =>
    match matchBlockAt (c :: t) with
    | some (body, rest) => body :: findBlocksF fuel rest
    | none => findBlocksF fuel t

/-- `findBlocksF` at its adequate fuel. -/
def findBlocks (s : Str) : List Str := findBlocksF s.length s

/-! ### Numbered-list line regex `^\d+\.\s*(?:[^:]+:\s*)?(.+)$`
(src/repl.rs 735).

`captures` is applied to a trimmed line (no `'\n'`).  Backtracking order:
`\d+` is forced maximal (a shorter run would be followed by a digit, not
`'.'`); `\s*` greedy from its maximal run downward; at each amount the
optional group is preferred over its absence; inside the group `[^:]+` is
forced to stop at the first colon; after the colon the inner `\s*` is
greedy and the final `(.+)$` takes the whole nonempty remainder, giving
back one whitespace character when the remainder would be empty. -/

/-- `(.+)$` on a newline-free line: capture the whole remainder if
nonempty. -/
def tryWholeCapture (r : Str) : Option Str :=
  if r.isEmpty then none else some r

/-- `\s*(.+)$` after the group's colon: greedy whitespace, then the
nonempty remainder (backing the greedy `\s*` off by one character when
everything after the colon is whitespace). -/
def tryTailCapture (r2 : Str) : Option Str :=
  if r2.isEmpty then none
  else
    let w := (r2.takeWhile isWs).length
    if w = r2.length then some (r2.drop (w - 1))
    else some (r2.drop w)

/-- `(?:[^:]+:\s*)?(.+)$` with the optional group present: a nonempty
colon-free run, a colon, then `tryTailCapture`. -/
def tryGroupThen (r : Str) : Option Str :=
  let a := r.takeWhile (fun d => d ≠ ':')
  if a.isEmpty then none
  else
    match (r.drop a.length).head? with
    | some ':' => tryTailCapture (r.drop (a.length + 1))
    | _ => none

/-- `(?:[^:]+:\s*)?(.+)$`: prefer the group, fall back to the bare
capture. -/
def tryAt (r : Str) : Option Str :=
  match tryGroupThen r with
  | some c => some c
  | none => tryWholeCapture r

/-- Iterate the outer `\s*` amounts from `i` down to `0`. -/
def numberedWs (r1 : Str) : Nat → Option Str
  | 0 => tryAt r1
  | i + 1 =>
    match tryAt (r1.drop (i + 1)) with
    | some c => some c
    | none => numberedWs r1 i

/-- Capture group 1 of `^\d+\.\s*(?:[^:]+:\s*)?(.+)$` on a line. -/
def numberedCapture (s : Str) : Option Str :=
  let ds := s.takeWhile Char.isDigit
  if ds.isEmpty then none
  else
    match s.drop ds.length with
    | '.' :: r1 => numberedWs r1 (r1.takeWhile isWs).length
    | _ => none

/-! ### Connector-phrase patterns of `extract_command_from_description`
(src/repl.rs 797-801). -/

/-- `(?:\s+(?:to|and|then|:|$))` matches at this position. -/
def trailP1 (r : Str) : Bool :=
  let w := (r.takeWhile isWs).length
  (List.range w).any (fun j0 =>
    let rr := r.drop (j0 + 1)
    rr.isEmpty || startsWithS (str "to") rr || startsWithS (str "and") rr ||
      startsWithS (str "then") rr || startsWithS (str ":") rr)

/-- Pattern 1 `(?:using|with|run|execute)\s+(.+?)(?:\s+(?:to|and|then|:|$))`
tried at the head of `s`: keyword alternation in source order, greedy
`\s+` from maximal downward, lazy capture from one character upward. -/
def matchP1At (s : Str) : Option Str :=
  (["using", "with", "run", "execute"].map str).findSome? (fun kw =>
    if kw.isPrefixOf s then
      let afterKw := s.drop kw.length
      let wmax := (afterKw.takeWhile isWs).length
      if wmax = 0 then none
      else
        (List.range wmax).findSome? (fun j =>
          let rest := afterKw.drop (wmax - j)
          (List.range rest.length).findSome? (fun k0 =>
            let cap := rest.take (k0 + 1)
            if trailP1 (rest.drop (k0 + 1)) then some cap else none))
    else none)

/-- Leftmost match of pattern 1 over the description. -/
def findP1 : Str → Option Str
  | [] => none
  | c :: t =>
    match matchP1At (c :: t) with
    | some cap => some cap
    | none => findP1 t

/-- Leftmost match of pattern 2 `:\s*(.+?)(?:\s*$)`: at each colon, greedy
`\s*` downward, lazy capture upward, trailing `\s*$` = all-whitespace
remainder. -/
def findP2 : Str → Option Str
  | [] => none
  | c :: t =>
    if c = ':' then
      let wmax := (t.takeWhile isWs).length
      match (List.range (wmax + 1)).findSome? (fun j =>
          let r := t.drop (wmax - j)
          (List.range r.length).findSome? (fun k0 =>
            let cap := r.take (k0 + 1)
            if (r.drop (k0 + 1)).all isWs then some cap else none)) with
      | some cap => some cap
      | none => findP2 t
    else findP2 t

/-- `(?:\s+(?:to|and|then|:))` matches at this position (no `$`
alternative, unlike `trailP1`). -/
def trailP3 (r : Str) : Bool :=
  let w := (r.takeWhile isWs).length
  (List.range w).any (fun j0 =>
    let rr := r.drop (j0 + 1)
    startsWithS (str "to") rr || startsWithS (str "and") rr ||
      startsWithS (str "then") rr || startsWithS (str ":") rr)

/-- Pattern 3 `^(.+?)(?:\s+(?:to|and|then|:))`: anchored, lazy capture
from one character upward. -/
def findP3 (s : Str) : Option Str :=
  (List.range s.length).findSome? (fun k0 =>
    let cap := s.take (k0 + 1)
    if trailP3 (s.drop (k0 + 1)) then some cap else none)

/-- Guard shared by the pattern layers: trim the capture and keep it only
if it passes the extended classifier. -/
def keepIfExtended (c : Str) : Option Str :=
  let p := trim c
  if looks_like_command_extended p then some p else none

/-- `extract_command_from_description` (src/repl.rs 781-822): first any
backtick span inside the description that passes the extended classifier;
then the three connector-phrase patterns in order; finally the whole
description if it passes the extended classifier. -/
def extract_command_from_description (description : Str) : Option Str :=
  match (findInline description).findSome? keepIfExtended with
  | some c => some c
  | none =>
    match (findP1 description).bind keepIfExtended with
    | some c => some c
    | none =>
      match (findP2 description).bind keepIfExtended with
      | some c => some c
      | none =>
        match (findP3 description).bind keepIfExtended with
        | some c => some c
        | none =>
          if looks_like_command_extended description then some description
          else none

/-! ## The three extraction layers and `extract_and_store_commands`
(src/repl.rs 729-779). -/

/-- Layer 1: numbered-list lines.  For each line of the response, apply
the numbered regex to the trimmed line, trim capture group 1 and run
`extract_command_from_description` on it. -/
def numberedLayer (response : Str) : List Str :=
  (linesStr response).filterMap (fun line =>
    (numberedCapture (trim line)).bind (fun cap =>
      extract_command_from_description (trim cap)))

/-- Layer 2: fenced code blocks.  Trim each block body; keep it when
nonempty and accepted by the basic classifier. -/
def codeBlockLayer (response : Str) : List Str :=
  (findBlocks response).filterMap (fun c =>
    let cmd := trim c
    if !cmd.isEmpty && looks_like_command cmd then some cmd else none)

/-- Layer 3: inline code spans.  Trim each span body; keep it when
accepted by the extended classifier. -/
def inlineLayer (response : Str) : List Str :=
  (findInline response).filterMap (fun c =>
    let cmd := trim c
    if looks_like_command_extended cmd then some cmd else none)

/-- `extract_and_store_commands` (src/repl.rs 729-779): the three layers
appended in order, truncated to the first three candidates.  No
deduplication is performed. -/
def extract_and_store_commands (response : Str) : List Str :=
  (numberedLayer response ++ codeBlockLayer response ++
    inlineLayer response).take 3

/-! ## Session state (the `ShyRepl` fields the core mutates,
src/repl.rs 13-21). -/

/-- The session-owned mutable fields relevant to the core:
`last_suggested_commands`, `history_offset`,
`selected_history_source`. -/
structure ShyState where
  last_suggested_commands : List Str
  history_offset : Nat
  selected_history_source : Option Nat
deriving DecidableEq

/-- The state update performed by `extract_and_store_commands`
(`self.last_suggested_commands = commands`). -/
def storeCommands (st : ShyState) (response : Str) : ShyState :=
  { st with last_suggested_commands := extract_and_store_commands response }

/-! ## Confirmation workflow (`get_confirmed_command`,
`execute_command_with_confirmation`, src/repl.rs 411-464).

The dialoguer prompts are modelled as a script of user inputs consumed in
order: `ans b` answers a Confirm prompt, `txt s` answers an Input prompt.
A script that runs out, or answers the wrong kind of prompt, models a
failed `interact()` whose error the `?` operator propagates: the result
is `none`.  `some (some c)` means the workflow confirmed `c` for
execution; `some none` means the user cancelled and nothing runs. -/

inductive Inp where
  | ans (b : Bool)
  | txt (s : Str)
deriving DecidableEq

/-- `get_confirmed_command` (src/repl.rs 432-464): loop asking "run it?";
on no, ask "modify it?"; on yes, read a replacement command (pre-filled
with the current one) and loop; on no, cancel. -/
def get_confirmed_command (current : Str) : List Inp → Option (Option Str)
  | Inp.ans true :: _ => some (some current)
  | Inp.ans false :: Inp.ans true :: Inp.txt s :: rest =>
    get_confirmed_command s rest
  | Inp.ans false :: Inp.ans true :: Inp.ans _ :: _ => none
  | Inp.ans false :: [Inp.ans true] => none
  | Inp.ans false :: Inp.ans false :: _ => some none
  | Inp.ans false :: Inp.txt _ :: _ => none
  | [Inp.ans false] => none
  | Inp.txt _ :: _ => none
  | [] => none

/-! ## Execution and output analysis (`run_system_command`,
`analyze_command_output`, src/repl.rs 480-620).

The subprocess outcome is a parameter (`ExecOutcome`).  The two
`serde_json`-dependent helpers `extract_xkcd_download_suggestion` and
`extract_download_from_json` parse JSON through the external crate, so
they are abstracted as oracle parameters `xkcdExtract`/`jsonExtract` of
type `Str → Option Str`; every theorem below holds for all oracles. -/

/-- Outcome of spawning the platform shell: a spawn failure, or captured
stdout together with the success bit of the exit status (stderr does not
influence the analysed control flow). -/
inductive ExecOutcome where
  | spawnErr
  | captured (stdout : Str) (success : Bool)

/-- `looks_like_json` (src/repl.rs 616-620). -/
def looks_like_json (text : Str) : Bool :=
  let t := trim text
  (startsWithChar '{' t && t.getLast? = some '}') ||
    (startsWithChar '[' t && t.getLast? = some ']')

/-- `analyze_command_output` (src/repl.rs 532-566): xkcd JSON, generic
downloadable JSON, long `ls` listings, `git status` with modified files;
`none` when no suggestion accumulated. -/
def analyze_command_output (xkcdExtract jsonExtract : Str → Option Str)
    (command output : Str) : Option (List Str) :=
  let s0 : List Str := []
  let s1 :=
    if containsSub (str "xkcd.com") command &&
        containsSub (str "info.0.json") command then
      match xkcdExtract output with
      | some d => s0 ++ [d]
      | none => s0
    else s0
  let s2 :=
    if looks_like_json output then
      match jsonExtract output with
      | some d => s1 ++ [d]
      | none => s1
    else s1
  let s3 :=
    if startsWithS (str "ls") command &&
        decide (10 < (linesStr output).length) then
      s2 ++ [str "Filter results with: ls | grep <pattern>",
             str "Sort by date: ls -lt"]
    else s2
  let s4 :=
    if startsWithS (str "git status") command &&
        containsSub (str "modified:") output then
      s3 ++ [str "git diff", str "git add ."]
    else s3
  if s4.isEmpty then none else some s4

/-- `run_system_command` (src/repl.rs 480-530): takes `&self`; returns
the follow-up suggestion lists it displays (at most one, on zero-exit
success with a nonempty analysis) paired with the session state, which it
cannot mutate. -/
def run_system_command (xkcdExtract jsonExtract : Str → Option Str)
    (st : ShyState) (command : Str) (outcome : ExecOutcome) :
    List (List Str) × ShyState :=
  match outcome with
  | ExecOutcome.spawnErr => ([], st)
  | ExecOutcome.captured stdout success =>
    if success then
      match analyze_command_output xkcdExtract jsonExtract command stdout with
      | some suggestions => ([suggestions], st)
      | none => ([], st)
    else ([], st)

/-- `execute_command_with_confirmation` (src/repl.rs 415-430): run the
confirmation workflow when asked; execute the confirmed command via the
platform shell (`os` maps the executed command to its outcome); on
cancellation or prompt error nothing is executed. -/
def execute_command_with_confirmation
    (xkcdExtract jsonExtract : Str → Option Str) (os : Str → ExecOutcome)
    (st : ShyState) (command : Str) (ask_confirmation : Bool)
    (inputs : List Inp) : List (List Str) × ShyState :=
  match (if ask_confirmation then get_confirmed_command command inputs
         else some (some command)) with
  | some (some c) => run_system_command xkcdExtract jsonExtract st c (os c)
  | _ => ([], st)

/-- `execute_command` (src/repl.rs 411-413): confirmation required. -/
def execute_command (xkcdExtract jsonExtract : Str → Option Str)
    (os : Str → ExecOutcome) (st : ShyState) (command : Str)
    (inputs : List Inp) : List (List Str) × ShyState :=
  execute_command_with_confirmation xkcdExtract jsonExtract os st command
    true inputs

/-! ## History parsing and source resolution (src/repl.rs 1116-1481).

The filesystem is a parameter `fs : Str → FileState`; environment
variables `HISTFILE`/`HOME` are `Option Str` parameters; the best-effort
shell detection (`detect_current_shell`, process inspection) is a `Str`
parameter.  `PathBuf::join` is modelled as `home ++ "/" ++ file`. -/

/-- What the filesystem says about a path: missing, existing but not
readable to text, or readable with contents. -/
inductive FileState where
  | absent
  | unreadable
  | readable (contents : Str)

/-- `parse_standard_history` (src/repl.rs 1347-1354): keep lines that are
nonblank after trimming and do not begin with `'#'`; trim them; keep
results that are nonempty and shorter than 200 characters. -/
def parse_standard_history (contents : Str) : List Str :=
  (((linesStr contents).filter (fun line =>
      !(trim line).isEmpty && !startsWithChar '#' line)).map trim).filter
    (fun cmd => !cmd.isEmpty && decide (cmd.length < 200))

/-- `read_history_file` (src/repl.rs 1356-1365): a missing or unreadable
file yields `none`, never an error. -/
def read_history_file (fs : Str → FileState) (path : Str) : Option Str :=
  match fs path with
  | FileState.absent => none
  | FileState.unreadable => none
  | FileState.readable contents => some contents

/-- One step of the `parse_fish_history` line loop
(src/repl.rs 1379-1400), acting on `(commands, current_command,
in_command)`. -/
def fishStep (st : List Str × Str × Bool) (line : Str) :
    List Str × Str × Bool :=
  let commands := st.1
  let current := st.2.1
  let inCmd := st.2.2
  if startsWithS (str "- cmd: ") line then
    let commands := if inCmd && !(trim current).isEmpty
      then commands ++ [trim current] else commands
    (commands, line.drop 7, true)
  else if startsWithS (str "  when: ") line ||
      startsWithS (str "  paths:") line then
    if inCmd && !(trim current).isEmpty then
      (commands ++ [trim current], [], false)
    else (commands, current, false)
  else if inCmd && startsWithS (str "  ") line then
    (commands, current ++ '\n' :: trim line, inCmd)
  else (commands, current, inCmd)

/-- `parse_fish_history` (src/repl.rs 1374-1412): entry-per-`- cmd: `
line, two-space continuations joined with `'\n'`, finalization on
`when:`/`paths:` markers or a new entry, final flush, then the
empty/length post-filter. -/
def parse_fish_history (contents : Str) : List Str :=
  let fin := (linesStr contents).foldl fishStep ([], [], false)
  let commands := if fin.2.2 && !(trim fin.2.1).isEmpty
    then fin.1 ++ [trim fin.2.1] else fin.1
  commands.filter (fun cmd => !cmd.isEmpty && decide (cmd.length < 200))

/-- `parse_history_by_type` (src/repl.rs 1367-1372). -/
def parse_history_by_type (contents : Str) (shell_type : Str) : List Str :=
  if shell_type = str "Fish" then parse_fish_history contents
  else parse_standard_history contents

/-- The fixed per-dialect files under the home directory
(src/repl.rs 1174-1180 and 1425-1431). -/
def standardHistoryFiles : List (String × String) :=
  [(".local/share/fish/fish_history", "Fish"),
   (".zsh_history", "Zsh"),
   (".bash_history", "Bash"),
   (".history", "Shell"),
   (".sh_history", "Shell")]

/-- `collect_all_history_paths` (src/repl.rs 1165-1191): the `HISTFILE`
override first, then the well-known home files, deduplicated by path.
The identical path-building code inlined in `get_shell_history_paths`
(src/repl.rs 1417-1439) is shared here. -/
def collect_all_history_paths (histfile home : Option Str) :
    List (Str × Str) :=
  let base : List (Str × Str) :=
    match histfile with
    | some h => [(h, str "Custom")]
    | none => []
  match home with
  | some hp =>
    standardHistoryFiles.foldl (fun acc ft =>
      let path := hp ++ str "/" ++ str ft.1
      if acc.any (fun q => q.1 = path) then acc
      else acc ++ [(path, str ft.2)]) base
  | none => base

/-- `get_shell_history_paths` (src/repl.rs 1414-1481): a pinned source
short-circuits (when its index is in range); otherwise the detected
shell's dialect is promoted to the front and the remaining paths follow
in discovery order. -/
def get_shell_history_paths (histfile home : Option Str)
    (selected : Option Nat) (currentShell : Str) : List (Str × Str) :=
  let allPaths := collect_all_history_paths histfile home
  let prioritized :=
    let promoted := allPaths.find? (fun q =>
      (currentShell = str "fish" && q.2 = str "Fish") ||
        (currentShell = str "zsh" && q.2 = str "Zsh") ||
        (currentShell = str "bash" && q.2 = str "Bash"))
    let base := match promoted with
      | some q => [q]
      | none => []
    allPaths.foldl (fun acc q =>
      if acc.any (fun r => r.1 = q.1) then acc else acc ++ [q]) base
  match selected with
  | some i =>
    match allPaths.get? i with
    | some entry => [entry]
    | none => prioritized
  | none => prioritized

/-- The source-description string `format!("{} ({})", shell_type,
path.display())`. -/
def sourceInfo (shell_type path : Str) : Str :=
  shell_type ++ str " (" ++ path ++ str ")"

/-- The source-iteration loop of `get_paginated_history`
(src/repl.rs 1123-1142): first readable source wins; its parsed entries
are reversed (most recent first), offset entries skipped, at most
`limit` taken. -/
def paginatedLoop (fs : Str → FileState) (paths : List (Str × Str))
    (offset limit : Nat) : List Str × Str × Nat :=
  match paths with
  | [] => ([], str "No history found", 0)
  | (path, shell_type) :: rest =>
    match read_history_file fs path with
    | none => paginatedLoop fs rest offset limit
    | some contents =>
      let all := parse_history_by_type contents shell_type
      (((all.reverse.drop offset).take limit), sourceInfo shell_type path,
        all.length)

/-- `get_paginated_history` (src/repl.rs 1116-1143). -/
def get_paginated_history (fs : Str → FileState) (histfile home : Option Str)
    (selected : Option Nat) (currentShell : Str) (offset limit : Nat) :
    List Str × Str × Nat :=
  paginatedLoop fs (get_shell_history_paths histfile home selected
    currentShell) offset limit

/-- The source-iteration loop of `get_recent_bash_history`
(src/repl.rs 1304-1323): last `limit` entries in chronological order. -/
def recentLoop (fs : Str → FileState) (paths : List (Str × Str))
    (limit : Nat) : List Str × Str :=
  match paths with
  | [] => ([], str "No history found")
  | (path, shell_type) :: rest =>
    match read_history_file fs path with
    | none => recentLoop fs rest limit
    | some contents =>
      let commands := parse_history_by_type contents shell_type
      ((commands.reverse.take limit).reverse, sourceInfo shell_type path)

/-- `get_recent_bash_history` (src/repl.rs 1301-1324). -/
def get_recent_bash_history (fs : Str → FileState)
    (histfile home : Option Str) (selected : Option Nat)
    (currentShell : Str) (limit : Nat) : List Str × Str :=
  recentLoop fs (get_shell_history_paths histfile home selected
    currentShell) limit

/-! ## Interactive source selection (src/repl.rs 1145-1270).

`exists?` models `Path::exists`; `mtimeStr` models the formatted
`get_file_modification_time` annotation; `selection` is the index the
user picks in the dialoguer menu (0 is "Auto-detect", and the menu
guarantees `selection ≤ available.length`). -/

/-- `build_available_sources` (src/repl.rs 1193-1211): the labels and
original indices of the paths that exist. -/
def build_available_sources (existsF : Str → Bool) (mtimeStr : Str → Str)
    (allPaths : List (Str × Str)) : List Str × List Nat :=
  (allPaths.enum.foldl (fun acc pi =>
    if existsF pi.2.1 then
      (acc.1 ++ [pi.2.2 ++ str " (" ++ pi.2.1 ++ str ") - last modified: " ++
        mtimeStr pi.2.1], acc.2 ++ [pi.1])
    else acc) ([], []))

/-- `handle_source_selection` (src/repl.rs 1253-1270): selection 0 clears
the pinned source (auto-detect); any other selection pins the source at
`available_indices[selection - 1]`. -/
def handle_source_selection (st : ShyState) (selection : Nat)
    (available_indices : List Nat) : ShyState :=
  if selection = 0 then { st with selected_history_source := none }
  else { st with selected_history_source :=
    available_indices.get? (selection - 1) }

/-- `select_history_source` (src/repl.rs 1145-1163): with zero or one
available sources the sub-menu collapses to a message and reports no
change; otherwise every selection (auto-detect included) is handled and
the function reports a change. -/
def select_history_source (existsF : Str → Bool) (mtimeStr : Str → Str)
    (histfile home : Option Str) (st : ShyState) (selection : Nat) :
    ShyState × Bool :=
  let allPaths := collect_all_history_paths histfile home
  let avail := build_available_sources existsF mtimeStr allPaths
  if avail.1.isEmpty then (st, false)
  else if avail.1.length = 1 then (st, false)
  else (handle_source_selection st selection avail.2, true)

/-- The "Change history source" arm of the history browser loop
(src/repl.rs 1101-1106): when `select_history_source` reports a change
the pagination offset is reset to zero, otherwise it is preserved. -/
def changeSourceAction (existsF : Str → Bool) (mtimeStr : Str → Str)
    (histfile home : Option Str) (st : ShyState) (currentOffset : Nat)
    (selection : Nat) : ShyState × Nat :=
  let r := select_history_source existsF mtimeStr histfile home st selection
  (r.1, if r.2 then 0 else currentOffset)

/-! ## Concrete test fixtures -/

/-- A 25-entry standard history file (one single-letter command per
line). -/
def historyContents25 : Str :=
  str "a\nb\nc\nd\ne\nf\ng\nh\ni\nj\nk\nl\nm\nn\no\np\nq\nr\ns\nt\nu\nv\nw\nx\ny\n"

/-- A filesystem with exactly one readable history file at `"/h/hist"`. -/
def fsSingleHistory : Str → FileState := fun p =>
  if p = str "/h/hist" then FileState.readable historyContents25
  else FileState.absent

/-! ## Supporting lemmas -/

theorem matchBlockAt_rest_lt (s : Str) (b rest : Str)
    (h : matchBlockAt s = some (b, rest)) : rest.length < s.length := by
  unfold matchBlockAt at h
  split at h
  case isTrue hpre =>
    have hlen3 : 3 ≤ s.length := by
      have := List.IsPrefix.length_le ((List.isPrefixOf_iff_prefix).mp hpre)
      simpa [str] using this
    simp only [] at h
    split at h
    · exact absurd h (by simp)
    case h_2 s2 heq =>
      have hs2ex : ∃ k, 1 ≤ k ∧ s2 = (s.drop 3).drop k := by
        split at heq
        · exact ⟨5, by omega, by simpa using heq.symm⟩
        · split at heq
          · exact ⟨3, by omega, by simpa using heq.symm⟩
          · split at heq
            · exact ⟨6, by omega, by simpa using heq.symm⟩
            · split at heq
              · exact ⟨1, by omega, by simpa using heq.symm⟩
              · exact absurd heq (by simp)
      obtain ⟨k, hk, hs2eq⟩ := hs2ex
      split at h
      · exact absurd h (by simp)
      case isFalse hbody =>
        split at h
        · have hrest : rest = ((s2.drop (s2.takeWhile
              (fun d => d ≠ tickChar)).length).drop 3) := by
            have := h
            simp only [Option.some.injEq, Prod.mk.injEq] at this
            exact this.2.symm
          have hbpos : 0 < (s2.takeWhile (fun d => d ≠ tickChar)).length := by
            rcases hb : s2.takeWhile (fun d => d ≠ tickChar) with _ | _
            · rw [hb] at hbody; simp at hbody
            · simp [hb]
          rw [hrest, hs2eq]
          simp only [List.length_drop]
          simp only [hs2eq, List.length_drop] at hbpos
          omega
        · exact absurd h (by simp)
  case isFalse => exact absurd h (by simp)

theorem dropWhile_head_not (p : Char → Bool) :
    ∀ (l : Str) (a : Char), (l.dropWhile p).head? = some a → p a = false := by
  intro l
  induction l with
  | nil => intro a h; simp [List.dropWhile_nil] at h
  | cons b t ih =>
    intro a h
    rw [List.dropWhile_cons] at h
    by_cases hb : p b = true
    · exact ih a (by simpa [hb] using h)
    · rw [if_neg hb] at h
      have hba : b = a := by simpa using h
      subst hba
      simpa using hb

theorem dropWhile_eq_self (p : Char → Bool) (l : Str)
    (h : ∀ a, l.head? = some a → p a = false) : l.dropWhile p = l := by
  cases l with
  | nil => rfl
  | cons b t =>
    rw [List.dropWhile_cons]
    simp [h b rfl]

theorem trim_idem (s : Str) : trim (trim s) = trim s := by
  unfold trim
  set A := s.dropWhile isWs with hA
  set C := A.reverse.dropWhile isWs with hC
  rcases hCnil : C with _ | ⟨c0, ct⟩
  · simp [hCnil]
  · have hCne : C ≠ [] := by rw [hCnil]; simp
    have hstep1 : C.reverse.dropWhile isWs = C.reverse := by
      apply dropWhile_eq_self
      intro a ha
      rw [List.head?_reverse] at ha
      have hsplit : A.reverse.takeWhile isWs ++ C = A.reverse := by
        rw [hC]; exact List.takeWhile_append_dropWhile isWs A.reverse
      have hlast : A.reverse.getLast? = some a := by
        rw [← hsplit, List.getLast?_append]
        have : C.getLast? = some a := ha
        simp [this]
      rw [List.getLast?_reverse] at hlast
      rw [hA] at hlast
      exact dropWhile_head_not isWs s a hlast
    rw [← hCnil] at *
    rw [hstep1, List.reverse_reverse]
    have hstep2 : C.dropWhile isWs = C := by
      apply dropWhile_eq_self
      intro a ha
      exact dropWhile_head_not isWs A.reverse a (by rw [hC] at ha; exact ha)
    rw [hstep2]

theorem run_system_command_state (xk jex : Str → Option Str) (st : ShyState)
    (cmd : Str) (outcome : ExecOutcome) :
    (run_system_command xk jex st cmd outcome).2 = st := by
  unfold run_system_command
  cases outcome with
  | spawnErr => rfl
  | captured stdout success =>
    by_cases hs : success = true
    · simp only [hs, if_true]
      cases analyze_command_output xk jex cmd stdout <;> rfl
    · simp only [Bool.not_eq_true] at hs
      simp [hs]

theorem run_system_command_displays_le_one (xk jex : Str → Option Str)
    (st : ShyState) (cmd : Str) (outcome : ExecOutcome) :
    (run_system_command xk jex st cmd outcome).1.length ≤ 1 := by
  unfold run_system_command
  cases outcome with
  | spawnErr => simp
  | captured stdout success =>
    by_cases hs : success = true
    · simp only [hs, if_true]
      cases analyze_command_output xk jex cmd stdout <;> simp
    · simp only [Bool.not_eq_true] at hs
      simp [hs]

/-- C1: `extract_and_store_commands` stores at most 3 candidates,
accumulated as the numbered-list layer, then the fenced-code-block layer,
then the inline-code layer, truncated to the first 3 across all layers in
order, with no deduplication: on `"1. ` + "`git status`" + `"` the same
command is stored twice, once by the numbered layer and once by the
inline layer. -/
theorem c1_layer_order_and_truncation :
    (∀ st response, (storeCommands st response).last_suggested_commands =
      extract_and_store_commands response) ∧
    (∀ response, extract_and_store_commands response =
      (numberedLayer response ++ codeBlockLayer response ++
        inlineLayer response).take 3) ∧
    (∀ response, (extract_and_store_commands response).length ≤ 3) ∧
    extract_and_store_commands (str "1. ") = [] ∧
    extract_and_store_commands ((str "1. ") ++ (str "`git status`")) =
      [str "git status", str "git status"] := by
  refine ⟨fun st response => rfl, fun response => rfl, fun response => ?_,
    by decide, by decide⟩
  unfold extract_and_store_commands
  simp only [List.length_take]
  omega

/-- C3: in the confirmation workflow, answering no to "run it?", yes to
"modify it?", supplying a replacement `S` and then answering yes executes
exactly `S` (whatever the initial command was); answering no to both
returns cancelled and nothing is executed. -/
theorem c3_confirmation_workflow :
    (∀ (initial S : Str) (rest : List Inp),
      get_confirmed_command initial
        (Inp.ans false :: Inp.ans true :: Inp.txt S :: Inp.ans true :: rest)
        = some (some S)) ∧
    (∀ (initial S : Str) (rest : List Inp) (xk jex : Str → Option Str)
        (os : Str → ExecOutcome) (st : ShyState),
      execute_command_with_confirmation xk jex os st initial true
        (Inp.ans false :: Inp.ans true :: Inp.txt S :: Inp.ans true :: rest)
        = run_system_command xk jex st S (os S)) ∧
    (∀ (initial : Str) (rest : List Inp),
      get_confirmed_command initial (Inp.ans false :: Inp.ans false :: rest)
        = some none) ∧
    (∀ (initial : Str) (rest : List Inp) (xk jex : Str → Option Str)
        (os : Str → ExecOutcome) (st : ShyState),
      execute_command_with_confirmation xk jex os st initial true
        (Inp.ans false :: Inp.ans false :: rest) = ([], st)) := by
  refine ⟨fun initial S rest => rfl, fun initial S rest xk jex os st => rfl,
    fun initial rest => rfl, fun initial rest xk jex os st => rfl⟩

/-- C8: executing a confirmed command displays at most one follow-up
suggestion list and leaves the stored suggestion set, the pinned history
source and the pagination offset unchanged, for every subprocess outcome
and every behaviour of the JSON-parsing helpers. -/
theorem c8_execution_frame :
    (∀ (xk jex : Str → Option Str) (st : ShyState) (cmd : Str)
        (outcome : ExecOutcome),
      (run_system_command xk jex st cmd outcome).2.last_suggested_commands
          = st.last_suggested_commands ∧
      (run_system_command xk jex st cmd outcome).2.history_offset
          = st.history_offset ∧
      (run_system_command xk jex st cmd outcome).2.selected_history_source
          = st.selected_history_source ∧
      (run_system_command xk jex st cmd outcome).1.length ≤ 1) ∧
    (∀ (xk jex : Str → Option Str) (os : Str → ExecOutcome) (st : ShyState)
        (cmd : Str) (ask : Bool) (inputs : List Inp),
      (execute_command_with_confirmation xk jex os st cmd ask
          inputs).2 = st ∧
      (execute_command_with_confirmation xk jex os st cmd ask
          inputs).1.length ≤ 1) := by
  constructor
  · intro xk jex st cmd outcome
    rw [run_system_command_state]
    exact ⟨rfl, rfl, rfl, run_system_command_displays_le_one xk jex st cmd
      outcome⟩
  · intro xk jex os st cmd ask inputs
    unfold execute_command_with_confirmation
    rcases hc : (if ask then get_confirmed_command cmd inputs
        else some (some cmd)) with _ | ⟨_ | c⟩
    · exact ⟨rfl, by simp⟩
    · exact ⟨rfl, by simp⟩
    · exact ⟨run_system_command_state xk jex st c (os c),
        run_system_command_displays_le_one xk jex st c (os c)⟩

/-- C4: the Generic/Bash/Zsh parser splits on line boundaries, drops blank
lines and lines beginning with `'#'`, trims the remaining lines, drops
results of length 200 or more, and preserves order: in one ordered pass,
a line contributes its trimmed form exactly when it is nonblank, does not
begin with `'#'`, and trims to fewer than 200 characters.  In particular
the spec's example parses to `["ls", "cd /tmp"]`. -/
theorem c4_standard_history_parse :
    (∀ contents, parse_standard_history contents =
      (linesStr contents).filterMap (fun line =>
        if !(trim line).isEmpty && !startsWithChar '#' line &&
            decide ((trim line).length < 200) then some (trim line)
        else none)) ∧
    parse_standard_history (str "ls\n# comment\n\ncd /tmp\n") =
      [str "ls", str "cd /tmp"] := by
  constructor
  · intro contents
    unfold parse_standard_history
    induction linesStr contents with
    | nil => rfl
    | cons a l ih =>
      rw [List.filter_cons, List.filterMap_cons]
      by_cases h1 : (!(trim a).isEmpty && !startsWithChar '#' a) = true
      · rw [if_pos h1, List.map_cons, List.filter_cons]
        by_cases h2 : (!(trim a).isEmpty && decide ((trim a).length < 200))
            = true
        · rw [if_pos h2]
          have h3 : (!(trim a).isEmpty && !startsWithChar '#' a &&
              decide ((trim a).length < 200)) = true := by
            simp only [Bool.and_eq_true] at h1 h2 ⊢
            exact ⟨h1, h2.2⟩
          rw [if_pos h3, ih]
        · rw [if_neg h2]
          have h3 : ¬ (!(trim a).isEmpty && !startsWithChar '#' a &&
              decide ((trim a).length < 200)) = true := by
            simp only [Bool.and_eq_true] at h1 h2 ⊢
            intro hc
            exact h2 ⟨hc.1.1, hc.2⟩
          rw [if_neg h3, ih]
      · rw [if_neg h1]
        have h3 : ¬ (!(trim a).isEmpty && !startsWithChar '#' a &&
            decide ((trim a).length < 200)) = true := by
          simp only [Bool.and_eq_true] at h1 ⊢
          intro hc
          exact h1 hc.1
        rw [if_neg h3, ih]
  · decide

/-- C5: the Fish parser starts an entry at each `"- cmd: "` line, joins
two-space-indented continuation lines with an embedded newline, finalizes
on `when:`/`paths:` markers or a new `- cmd:` line, flushes a final
pending entry, and drops empty or 200-plus-character results.  The spec's
example parses to `["ls -la", "pwd"]`; a trailing unterminated entry is
flushed; a continuation is joined with `'\n'`; and every produced entry
is nonempty and shorter than 200 characters. -/
theorem c5_fish_history_parse :
    parse_fish_history (str "- cmd: ls -la\n  when: 123\n- cmd: pwd\n") =
      [str "ls -la", str "pwd"] ∧
    parse_fish_history (str "- cmd: ls\n") = [str "ls"] ∧
    parse_fish_history (str "- cmd: echo a\n  echo b\n  when: 1\n") =
      [str "echo a\necho b"] ∧
    (∀ contents c, c ∈ parse_fish_history contents →
      c ≠ [] ∧ c.length < 200) := by
  refine ⟨by decide, by decide, by decide, ?_⟩
  intro contents c hc
  unfold parse_fish_history at hc
  rw [List.mem_filter] at hc
  rcases hc with ⟨-, hp⟩
  simp only [Bool.and_eq_true, Bool.not_eq_true', List.isEmpty_eq_false,
    decide_eq_true_eq] at hp
  exact hp

/-- Witness for C5: the invariant conjunct applied to the spec's example
input at the concrete entry `"ls -la"`. -/
theorem c5_fish_history_parse_witness :
    (str "ls -la") ∈
      parse_fish_history (str "- cmd: ls -la\n  when: 123\n- cmd: pwd\n") ∧
    (str "ls -la") ≠ [] ∧ (str "ls -la").length < 200 :=
  ⟨by decide, c5_fish_history_parse.2.2.2
    (str "- cmd: ls -la\n  when: 123\n- cmd: pwd\n") (str "ls -la")
    (by decide)⟩

/-- C7: a candidate source whose file is missing or unreadable reads as
`none` and is skipped in favour of the next candidate; `page`/`recent`
never produce an error, and when no candidate yields readable content
they return the empty list with description `"No history found"` (and
total count 0 for `page`). -/
theorem c7_missing_history_is_no_data :
    (∀ (fs : Str → FileState) (path : Str), fs path = FileState.absent →
      read_history_file fs path = none) ∧
    (∀ (fs : Str → FileState) (path : Str), fs path = FileState.unreadable →
      read_history_file fs path = none) ∧
    (∀ (fs : Str → FileState) (path ty : Str) (rest : List (Str × Str))
        (offset limit : Nat), read_history_file fs path = none →
      paginatedLoop fs ((path, ty) :: rest) offset limit =
        paginatedLoop fs rest offset limit) ∧
    (∀ (fs : Str → FileState) (path ty : Str) (rest : List (Str × Str))
        (limit : Nat), read_history_file fs path = none →
      recentLoop fs ((path, ty) :: rest) limit = recentLoop fs rest limit) ∧
    (∀ (fs : Str → FileState) (paths : List (Str × Str))
        (offset limit : Nat),
      (∀ p ∈ paths, read_history_file fs p.1 = none) →
      paginatedLoop fs paths offset limit =
        ([], str "No history found", 0)) ∧
    (∀ (fs : Str → FileState) (paths : List (Str × Str)) (limit : Nat),
      (∀ p ∈ paths, read_history_file fs p.1 = none) →
      recentLoop fs paths limit = ([], str "No history found")) := by
  refine ⟨?_, ?_, ?_, ?_, ?_, ?_⟩
  · intro fs path h
    unfold read_history_file
    rw [h]
  · intro fs path h
    unfold read_history_file
    rw [h]
  · intro fs path ty rest offset limit h
    simp only [paginatedLoop, h]
  · intro fs path ty rest limit h
    simp only [recentLoop, h]
  · intro fs paths offset limit h
    induction paths with
    | nil => rfl
    | cons p rest ih =>
      rcases p with ⟨path, ty⟩
      unfold paginatedLoop
      rw [h (path, ty) (List.mem_cons_self _ _)]
      exact ih (fun q hq => h q (List.mem_cons_of_mem _ hq))
  · intro fs paths limit h
    induction paths with
    | nil => rfl
    | cons p rest ih =>
      rcases p with ⟨path, ty⟩
      unfold recentLoop
      rw [h (path, ty) (List.mem_cons_self _ _)]
      exact ih (fun q hq => h q (List.mem_cons_of_mem _ hq))

/-- Witness for C7: with every file absent, paging over the full
candidate list for a home directory yields the empty result with
description `"No history found"` and total count 0. -/
theorem c7_missing_history_is_no_data_witness :
    (∀ p ∈ collect_all_history_paths none (some (str "/home/u")),
      read_history_file (fun _ => FileState.absent) p.1 = none) ∧
    paginatedLoop (fun _ => FileState.absent)
      (collect_all_history_paths none (some (str "/home/u"))) 0 20 =
      ([], str "No history found", 0) :=
  ⟨by decide, c7_missing_history_is_no_data.2.2.2.2.1
    (fun _ => FileState.absent)
    (collect_all_history_paths none (some (str "/home/u"))) 0 20
    (by decide)⟩

/-- C10: whenever at least two history sources exist, every selection in
the source-change sub-menu (the "Auto-detect" option included) makes
`select_history_source` report a change and resets the browser's
pagination offset to zero — selection 0 additionally clears the pinned
source; the offset survives only when zero or one sources exist and the
sub-menu collapses to a no-op. -/
theorem c10_source_change_resets_offset :
    (∀ (existsF : Str → Bool) (mtimeStr : Str → Str)
        (histfile home : Option Str) (st : ShyState)
        (selection offset : Nat),
      2 ≤ (build_available_sources existsF mtimeStr
        (collect_all_history_paths histfile home)).1.length →
      (select_history_source existsF mtimeStr histfile home st
        selection).2 = true ∧
      (changeSourceAction existsF mtimeStr histfile home st offset
        selection).2 = 0 ∧
      (select_history_source existsF mtimeStr histfile home st
        0).1.selected_history_source = none) ∧
    (∀ (existsF : Str → Bool) (mtimeStr : Str → Str)
        (histfile home : Option Str) (st : ShyState)
        (selection offset : Nat),
      (build_available_sources existsF mtimeStr
        (collect_all_history_paths histfile home)).1.length ≤ 1 →
      (select_history_source existsF mtimeStr histfile home st
        selection).2 = false ∧
      (changeSourceAction existsF mtimeStr histfile home st offset
        selection).2 = offset) := by
  constructor
  · intro existsF mtimeStr histfile home st selection offset h2
    have hne : ((build_available_sources existsF mtimeStr
        (collect_all_history_paths histfile home)).1.isEmpty) = false := by
      rcases hl : (build_available_sources existsF mtimeStr
          (collect_all_history_paths histfile home)).1 with _ | _
      · rw [hl] at h2; simp at h2
      · simp [hl]
    have hone : ¬ ((build_available_sources existsF mtimeStr
        (collect_all_history_paths histfile home)).1.length = 1) := by
      omega
    refine ⟨?_, ?_, ?_⟩
    · simp only [select_history_source, hne, Bool.false_eq_true, if_false,
        hone]
    · simp only [changeSourceAction, select_history_source, hne,
        Bool.false_eq_true, if_false, hone]
      simp
    · simp only [select_history_source, hne, Bool.false_eq_true, if_false,
        hone, handle_source_selection, if_pos]
  · intro existsF mtimeStr histfile home st selection offset h1
    by_cases hz : ((build_available_sources existsF mtimeStr
        (collect_all_history_paths histfile home)).1.isEmpty) = true
    · constructor
      · simp only [select_history_source, hz, if_true]
      · simp only [changeSourceAction, select_history_source, hz, if_true]
        simp
    · have hone : ((build_available_sources existsF mtimeStr
          (collect_all_history_paths histfile home)).1.length = 1) := by
        have hnn : (build_available_sources existsF mtimeStr
            (collect_all_history_paths histfile home)).1 ≠ [] := by
          intro hemp
          rw [hemp] at hz
          simp at hz
        have hpos : 0 < (build_available_sources existsF mtimeStr
            (collect_all_history_paths histfile home)).1.length :=
          List.length_pos.mpr hnn
        omega
      rw [Bool.not_eq_true] at hz
      constructor
      · simp only [select_history_source, hz, Bool.false_eq_true, if_false,
          hone, if_true]
      · simp only [changeSourceAction, select_history_source, hz,
          Bool.false_eq_true, if_false, hone, if_true]

/-- Witness for C10: with a home directory whose five well-known history
files all exist, choosing "Auto-detect" (selection 0) reports a change,
clears a previously pinned source and resets an offset of 20 to 0; with
only one existing file the sub-menu is a no-op and the offset of 20
survives. -/
theorem c10_source_change_resets_offset_witness :
    2 ≤ (build_available_sources (fun _ => true) (fun _ => str "1h ago")
      (collect_all_history_paths none (some (str "/home/u")))).1.length ∧
    (select_history_source (fun _ => true) (fun _ => str "1h ago") none
      (some (str "/home/u")) ⟨[], 20, some 2⟩ 0).2 = true ∧
    (changeSourceAction (fun _ => true) (fun _ => str "1h ago") none
      (some (str "/home/u")) ⟨[], 20, some 2⟩ 20 0).2 = 0 ∧
    (select_history_source (fun _ => true) (fun _ => str "1h ago") none
      (some (str "/home/u")) ⟨[], 20, some 2⟩ 0).1.selected_history_source
      = none ∧
    (build_available_sources (fun p => p = str "/home/u/.bash_history")
      (fun _ => str "1h ago")
      (collect_all_history_paths none (some (str "/home/u")))).1.length
      ≤ 1 ∧
    (select_history_source (fun p => p = str "/home/u/.bash_history")
      (fun _ => str "1h ago") none (some (str "/home/u"))
      ⟨[], 20, some 2⟩ 1).2 = false ∧
    (changeSourceAction (fun p => p = str "/home/u/.bash_history")
      (fun _ => str "1h ago") none (some (str "/home/u"))
      ⟨[], 20, some 2⟩ 20 1).2 = 20 := by
  have h2 := c10_source_change_resets_offset.1 (fun _ => true)
    (fun _ => str "1h ago") none (some (str "/home/u")) ⟨[], 20, some 2⟩ 0 20
    (by decide)
  have h1 := c10_source_change_resets_offset.2
    (fun p => p = str "/home/u/.bash_history") (fun _ => str "1h ago") none
    (some (str "/home/u")) ⟨[], 20, some 2⟩ 1 20 (by decide)
  exact ⟨by decide, h2.1, h2.2.1, h2.2.2, by decide, h1.1, h1.2⟩

/-- C6: `page(offset, limit)` returns the parsed entries of the resolved
source in most-recent-first order, skipping the first `offset` entries
and taking at most `limit`, together with the total entry count: the
result of the first readable source is the reverse-drop-take of its
parsed list, whose length is `min limit (total - offset)` and whose
`i`-th element is entry `total - 1 - offset - i` of the chronological
list.  On a 25-entry history, `page(0, 20)` returns the 20 most recent
entries and `page(20, 20)` the remaining 5. -/
theorem c6_pagination :
    (∀ (fs : Str → FileState) (path ty : Str) (rest : List (Str × Str))
        (offset limit : Nat) (contents : Str),
      read_history_file fs path = some contents →
      paginatedLoop fs ((path, ty) :: rest) offset limit =
        (((parse_history_by_type contents ty).reverse.drop offset).take
          limit, sourceInfo ty path,
          (parse_history_by_type contents ty).length)) ∧
    (∀ (all : List Str) (offset limit : Nat),
      ((all.reverse.drop offset).take limit).length =
        min limit (all.length - offset)) ∧
    (∀ (all : List Str) (offset limit i : Nat), offset + i < all.length →
      i < limit →
      ((all.reverse.drop offset).take limit)[i]? =
        all[all.length - 1 - offset - i]?) ∧
    (get_paginated_history fsSingleHistory (some (str "/h/hist")) none none
      (str "unknown") 0 20).1 =
      [str "y", str "x", str "w", str "v", str "u", str "t", str "s",
       str "r", str "q", str "p", str "o", str "n", str "m", str "l",
       str "k", str "j", str "i", str "h", str "g", str "f"] ∧
    (get_paginated_history fsSingleHistory (some (str "/h/hist")) none none
      (str "unknown") 0 20).2.2 = 25 ∧
    (get_paginated_history fsSingleHistory (some (str "/h/hist")) none none
      (str "unknown") 20 20).1 =
      [str "e", str "d", str "c", str "b", str "a"] := by
  refine ⟨?_, ?_, ?_, by decide, by decide, by decide⟩
  · intro fs path ty rest offset limit contents h
    simp only [paginatedLoop, h]
  · intro all offset limit
    simp [List.length_take, List.length_drop, List.length_reverse]
  · intro all offset limit i h1 h2
    rw [List.getElem?_take, if_pos h2, List.getElem?_drop]
    rw [List.getElem?_reverse h1]
    congr 1
    omega

/-- Witness for C6: the loop equation applied to the single-source
filesystem fixture, and the indexing equation applied at entry 0 of
`page(20, 20)` on the 25-entry history (the most recent entry of the
second page is the 5th chronological entry `"e"`). -/
theorem c6_pagination_witness :
    read_history_file fsSingleHistory (str "/h/hist") =
      some historyContents25 ∧
    paginatedLoop fsSingleHistory [(str "/h/hist", str "Custom")] 20 20 =
      (((parse_history_by_type historyContents25
        (str "Custom")).reverse.drop 20).take 20,
        sourceInfo (str "Custom") (str "/h/hist"),
        (parse_history_by_type historyContents25 (str "Custom")).length) ∧
    20 + 0 < (parse_history_by_type historyContents25
      (str "Custom")).length ∧ 0 < 20 ∧
    (((parse_history_by_type historyContents25
        (str "Custom")).reverse.drop 20).take 20)[0]? =
      (parse_history_by_type historyContents25 (str "Custom"))[
        (parse_history_by_type historyContents25 (str "Custom")).length
          - 1 - 20 - 0]? :=
  ⟨by decide,
   c6_pagination.1 fsSingleHistory (str "/h/hist") (str "Custom") [] 20 20
     historyContents25 (by decide),
   by decide, by decide,
   c6_pagination.2.2.1 (parse_history_by_type historyContents25
     (str "Custom")) 20 20 0 (by decide) (by decide)⟩

theorem keepIfExtended_some (c p : Str) (h : keepIfExtended c = some p) :
    looks_like_command_extended p = true ∧ p = trim c := by
  unfold keepIfExtended at h
  dsimp only at h
  split at h
  case isTrue hext =>
    have hp : trim c = p := by simpa using h
    rw [← hp]
    exact ⟨hext, rfl⟩
  case isFalse => exact absurd h (by simp)

theorem ecd_some (d c : Str)
    (h : extract_command_from_description d = some c) :
    looks_like_command_extended c = true ∧ (c = d ∨ ∃ x, c = trim x) := by
  unfold extract_command_from_description at h
  rcases h1 : (findInline d).findSome? keepIfExtended with _ | c1
  case some =>
    rw [h1] at h
    have hc : c1 = c := by simpa using h
    subst hc
    obtain ⟨a, -, ha⟩ := List.exists_of_findSome?_eq_some h1
    have := keepIfExtended_some a c1 ha
    exact ⟨this.1, Or.inr ⟨a, this.2⟩⟩
  case none =>
  rw [h1] at h
  rcases h2 : (findP1 d).bind keepIfExtended with _ | c2
  case some =>
    rw [h2] at h
    have hc : c2 = c := by simpa using h
    subst hc
    obtain ⟨a, -, ha⟩ := Option.bind_eq_some.mp h2
    have := keepIfExtended_some a c2 ha
    exact ⟨this.1, Or.inr ⟨a, this.2⟩⟩
  case none =>
  rw [h2] at h
  rcases h3 : (findP2 d).bind keepIfExtended with _ | c3
  case some =>
    rw [h3] at h
    have hc : c3 = c := by simpa using h
    subst hc
    obtain ⟨a, -, ha⟩ := Option.bind_eq_some.mp h3
    have := keepIfExtended_some a c3 ha
    exact ⟨this.1, Or.inr ⟨a, this.2⟩⟩
  case none =>
  rw [h3] at h
  rcases h4 : (findP3 d).bind keepIfExtended with _ | c4
  case some =>
    rw [h4] at h
    have hc : c4 = c := by simpa using h
    subst hc
    obtain ⟨a, -, ha⟩ := Option.bind_eq_some.mp h4
    have := keepIfExtended_some a c4 ha
    exact ⟨this.1, Or.inr ⟨a, this.2⟩⟩
  case none =>
  rw [h4] at h
  by_cases hext : looks_like_command_extended d = true
  · rw [if_pos hext] at h
    have hc : d = c := by simpa using h
    subst hc
    exact ⟨hext, Or.inl rfl⟩
  · rw [if_neg hext] at h
    exact absurd h (by simp)

theorem ext_of_trimmed (c : Str) (hc : trim c = c)
    (h : looks_like_command_extended c = true) :
    c.length ≤ 500 ∧ c.contains '\n' = false := by
  unfold looks_like_command_extended at h
  dsimp only at h
  rw [hc] at h
  split_ifs at h with h1 h2 h3
  exact ⟨by omega, by rwa [Bool.not_eq_true] at h2⟩

theorem basic_of_trimmed (c : Str) (hc : trim c = c)
    (h : looks_like_command c = true) :
    c.length ≤ 200 ∧ c.contains '\n' = false := by
  unfold looks_like_command at h
  dsimp only at h
  rw [hc] at h
  split_ifs at h with h1 h2
  exact ⟨by omega, by rwa [Bool.not_eq_true] at h2⟩

theorem mem_numberedLayer (r c : Str) (h : c ∈ numberedLayer r) :
    looks_like_command_extended c = true ∧ trim c = c := by
  unfold numberedLayer at h
  rw [List.mem_filterMap] at h
  obtain ⟨line, -, hline⟩ := h
  obtain ⟨cap, -, hecd⟩ := Option.bind_eq_some.mp hline
  have he := ecd_some (trim cap) c hecd
  rcases he.2 with hcd | ⟨x, hx⟩
  · rw [hcd]
    exact ⟨hcd ▸ he.1, trim_idem cap⟩
  · rw [hx]
    exact ⟨hx ▸ he.1, trim_idem x⟩

theorem mem_codeBlockLayer (r c : Str) (h : c ∈ codeBlockLayer r) :
    looks_like_command c = true ∧ trim c = c ∧ c ≠ [] := by
  unfold codeBlockLayer at h
  rw [List.mem_filterMap] at h
  obtain ⟨b, -, hb⟩ := h
  dsimp only at hb
  split at hb
  case isTrue hcond =>
    have hc : trim b = c := by simpa using hb
    rw [Bool.and_eq_true, Bool.not_eq_true', List.isEmpty_eq_false] at hcond
    rw [← hc]
    exact ⟨hcond.2, trim_idem b, hcond.1⟩
  case isFalse => exact absurd hb (by simp)

theorem mem_inlineLayer (r c : Str) (h : c ∈ inlineLayer r) :
    looks_like_command_extended c = true ∧ trim c = c := by
  unfold inlineLayer at h
  rw [List.mem_filterMap] at h
  obtain ⟨b, -, hb⟩ := h
  dsimp only at hb
  split at hb
  case isTrue hcond =>
    have hc : trim b = c := by simpa using hb
    rw [← hc]
    exact ⟨hcond, trim_idem b⟩
  case isFalse => exact absurd hb (by simp)

/-- C2: every candidate stored in the suggestion set has length at most
500 characters, contains no newline, and passes the command-likelihood
classifier — the basic variant for the code-block layer, the extended
variant for the numbered-list and inline layers. -/
theorem c2_stored_candidate_invariant :
    ∀ (response c : Str), c ∈ extract_and_store_commands response →
      c.length ≤ 500 ∧ c.contains '\n' = false ∧
      (looks_like_command c = true ∨
        looks_like_command_extended c = true) ∧
      (c ∈ numberedLayer response → looks_like_command_extended c = true) ∧
      (c ∈ codeBlockLayer response → looks_like_command c = true) ∧
      (c ∈ inlineLayer response → looks_like_command_extended c = true) := by
  intro r c h
  have hmem : c ∈ numberedLayer r ++ codeBlockLayer r ++ inlineLayer r :=
    List.take_subset 3 _ h
  rw [List.mem_append, List.mem_append] at hmem
  refine ⟨?_, ?_, ?_, fun hm => (mem_numberedLayer r c hm).1,
    fun hm => (mem_codeBlockLayer r c hm).1,
    fun hm => (mem_inlineLayer r c hm).1⟩
  · rcases hmem with (hm | hm) | hm
    · obtain ⟨he, ht⟩ := mem_numberedLayer r c hm
      exact (ext_of_trimmed c ht he).1
    · obtain ⟨he, ht, -⟩ := mem_codeBlockLayer r c hm
      exact le_trans (basic_of_trimmed c ht he).1 (by omega)
    · obtain ⟨he, ht⟩ := mem_inlineLayer r c hm
      exact (ext_of_trimmed c ht he).1
  · rcases hmem with (hm | hm) | hm
    · obtain ⟨he, ht⟩ := mem_numberedLayer r c hm
      exact (ext_of_trimmed c ht he).2
    · obtain ⟨he, ht, -⟩ := mem_codeBlockLayer r c hm
      exact (basic_of_trimmed c ht he).2
    · obtain ⟨he, ht⟩ := mem_inlineLayer r c hm
      exact (ext_of_trimmed c ht he).2
  · rcases hmem with (hm | hm) | hm
    · exact Or.inr (mem_numberedLayer r c hm).1
    · exact Or.inl (mem_codeBlockLayer r c hm).1
    · exact Or.inr (mem_inlineLayer r c hm).1

/-- Witness for C2: the invariant applied to the stored candidate
`"git status"` of a concrete response. -/
theorem c2_stored_candidate_invariant_witness :
    (str "git status") ∈ extract_and_store_commands
      (str "1. `git status`") ∧
    (str "git status").length ≤ 500 ∧
    (str "git status").contains '\n' = false :=
  ⟨by decide,
   (c2_stored_candidate_invariant (str "1. `git status`") (str "git status")
     (by decide)).1,
   (c2_stored_candidate_invariant (str "1. `git status`") (str "git status")
     (by decide)).2.1⟩

theorem findBlocksF_irrel : ∀ (f : Nat) (s : Str), s.length ≤ f →
    findBlocksF f s = findBlocksF s.length s := by
  intro f
  induction f using Nat.strong_induction_on with
  | _ f ih =>
    intro s hs
    cases f with
    | zero =>
      cases s with
      | nil => rfl
      | cons c t => simp at hs
    | succ g =>
      cases s with
      | nil => rfl
      | cons c t =>
        simp only [List.length_cons] at hs ⊢
        simp only [findBlocksF]
        rcases hm : matchBlockAt (c :: t) with _ | ⟨b, rest⟩
        · dsimp only
          have h1 : t.length ≤ g := by omega
          rw [ih g (by omega) t h1]
        · dsimp only
          have hrl : rest.length < t.length + 1 := by
            have := matchBlockAt_rest_lt (c :: t) b rest hm
            simpa using this
          rw [ih g (by omega) rest (by omega),
            ih t.length (by omega) rest (by omega)]

theorem findBlocksF_cons_some (fuel : Nat) (c : Char) (t b rest : Str)
    (hm : matchBlockAt (c :: t) = some (b, rest)) :
    findBlocksF (fuel + 1) (c :: t) = b :: findBlocksF fuel rest := by
  simp only [findBlocksF, hm]

theorem findBlocksF_cons_none (fuel : Nat) (c : Char) (t : Str)
    (hm : matchBlockAt (c :: t) = none) :
    findBlocksF (fuel + 1) (c :: t) = findBlocksF fuel t := by
  simp only [findBlocksF, hm]

theorem matchBlockAt_cons_none (c : Char) (t : Str) (h : c ≠ tickChar) :
    matchBlockAt (c :: t) = none := by
  have hpre : (str "```").isPrefixOf (c :: t) = false := by
    have hstr : str "```" = [tickChar, tickChar, tickChar] := by decide
    rw [hstr]
    simp only [List.isPrefixOf]
    rw [beq_eq_false_iff_ne.mpr (Ne.symm h)]
    rfl
  unfold matchBlockAt
  rw [hpre]
  rfl

theorem findBlocks_append_no_tick (pre rest : Str)
    (h : ∀ ch ∈ pre, ch ≠ tickChar) :
    findBlocks (pre ++ rest) = findBlocks rest := by
  unfold findBlocks
  induction pre with
  | nil => rfl
  | cons c p ih =>
    rw [List.cons_append, List.length_cons]
    rw [findBlocksF_cons_none _ _ _
      (matchBlockAt_cons_none c (p ++ rest) (h c (List.mem_cons_self _ _)))]
    exact ih (fun ch hch => h ch (List.mem_cons_of_mem _ hch))

theorem matchBlockAt_fence (post : Str) :
    matchBlockAt ((str "```bash\ngit status\n```") ++ post) =
      some (str "git status\n", post) := by
  unfold matchBlockAt
  rw [if_pos (show (str "```").isPrefixOf
    ((str "```bash\ngit status\n```") ++ post) = true from rfl)]
  dsimp only
  rw [if_pos (show (str "bash\n").isPrefixOf
    (((str "```bash\ngit status\n```") ++ post).drop 3) = true from rfl)]
  dsimp only
  rw [show ((((str "```bash\ngit status\n```") ++ post).drop 3).drop
    5).takeWhile (fun d => d ≠ tickChar) = str "git status\n" from rfl]
  rw [show (str "git status\n").isEmpty = false from rfl]
  simp only [Bool.false_eq_true, if_false]
  rw [show (str "git status\n").length = 11 from rfl]
  rw [show ((((str "```bash\ngit status\n```") ++ post).drop 3).drop
    5).drop 11 = (str "```") ++ post from rfl]
  rw [if_pos (show (str "```").isPrefixOf ((str "```") ++ post) = true
    from by cases post <;> rfl)]
  rw [show ((str "```") ++ post).drop 3 = post from rfl]

theorem findBlocks_fence (post : Str) :
    findBlocks ((str "```bash\ngit status\n```") ++ post) =
      (str "git status\n") :: findBlocks post := by
  unfold findBlocks
  have hshape : (str "```bash\ngit status\n```") ++ post =
      tickChar :: ((str "``bash\ngit status\n```") ++ post) := rfl
  have hm : matchBlockAt (tickChar ::
      ((str "``bash\ngit status\n```") ++ post)) =
      some (str "git status\n", post) := by
    rw [← hshape]
    exact matchBlockAt_fence post
  have hlen : ((str "```bash\ngit status\n```") ++ post).length =
      (post.length + 21) + 1 := by
    rw [List.length_append]
    have h22 : (str "```bash\ngit status\n```").length = 22 := by decide
    omega
  rw [hlen, hshape, findBlocksF_cons_some _ _ _ _ _ hm]
  congr 1
  exact findBlocksF_irrel (post.length + 21) post (by omega)

theorem mem_take_three (l1 l2 : List Str) (a : Str) (h : l1.length ≤ 2) :
    a ∈ (l1 ++ a :: l2).take 3 := by
  rw [List.take_append_eq_append_take,
    List.take_of_length_le (le_trans h (by omega))]
  apply List.mem_append_right
  rcases hk : 3 - l1.length with _ | k
  · omega
  · rw [List.take_succ_cons]
    exact List.mem_cons_self _ _

/-- Counterexample for C9: two response texts that contain the fenced
code block `\x60\x60\x60bash`, `git status`, `\x60\x60\x60` as a
substring yet whose extraction result does not include `"git status"`:
in the first, three numbered-list candidates fill the suggestion set
before the block layer runs; in the second, an earlier stray fence
shifts the non-overlapping block match away from the block. -/
theorem c9_counterexample :
    containsSub (str "```bash\ngit status\n```")
      (str "1. `ls -la`\n2. `ls -lt`\n3. `ls -a`\n```bash\ngit status\n```")
      = true ∧
    ¬ (str "git status") ∈ extract_and_store_commands
      (str "1. `ls -la`\n2. `ls -lt`\n3. `ls -a`\n```bash\ngit status\n```")
      ∧
    containsSub (str "```bash\ngit status\n```")
      (str "```\nx```bash\ngit status\n```") = true ∧
    ¬ (str "git status") ∈ extract_and_store_commands
      (str "```\nx```bash\ngit status\n```") := by
  refine ⟨by decide, by decide, by decide, by decide⟩

/-- C9 (amended): for every response text containing the fenced code
block `\x60\x60\x60bash`, `git status`, `\x60\x60\x60` with no backtick
before it and at most two candidates produced by the numbered-list
layer, the extraction result includes the candidate command
`"git status"`. -/
theorem c9_fenced_block_extraction (pre post : Str)
    (hpre : ∀ ch ∈ pre, ch ≠ tickChar)
    (hnum : (numberedLayer
      (pre ++ (str "```bash\ngit status\n```") ++ post)).length ≤ 2) :
    (str "git status") ∈ extract_and_store_commands
      (pre ++ (str "```bash\ngit status\n```") ++ post) := by
  have hassoc : pre ++ (str "```bash\ngit status\n```") ++ post =
      pre ++ ((str "```bash\ngit status\n```") ++ post) :=
    List.append_assoc _ _ _
  have hfb : findBlocks
      (pre ++ (str "```bash\ngit status\n```") ++ post) =
      (str "git status\n") :: findBlocks post := by
    rw [hassoc, findBlocks_append_no_tick pre _ hpre, findBlocks_fence]
  have hcb : codeBlockLayer
      (pre ++ (str "```bash\ngit status\n```") ++ post) =
      (str "git status") :: (findBlocks post).filterMap (fun c =>
        if !(trim c).isEmpty && looks_like_command (trim c)
        then some (trim c) else none) := by
    unfold codeBlockLayer
    rw [hfb, List.filterMap_cons]
    have hg : (if !(trim (str "git status\n")).isEmpty &&
        looks_like_command (trim (str "git status\n"))
        then some (trim (str "git status\n")) else none) =
        some (str "git status") := by decide
    rw [hg]
  unfold extract_and_store_commands
  rw [List.append_assoc, hcb, List.cons_append]
  exact mem_take_three _ _ _ hnum

/-- Witness for the amended C9: a concrete backtick-free preamble with no
numbered lines; the fenced block's command is extracted. -/
theorem c9_fenced_block_extraction_witness :
    (∀ ch ∈ str "Try:\n", ch ≠ tickChar) ∧
    (numberedLayer ((str "Try:\n") ++ (str "```bash\ngit status\n```") ++
      ([] : Str))).length ≤ 2 ∧
    (str "git status") ∈ extract_and_store_commands
      ((str "Try:\n") ++ (str "```bash\ngit status\n```") ++ ([] : Str)) :=
  ⟨by decide, by decide,
   c9_fenced_block_extraction (str "Try:\n") [] (by decide) (by decide)⟩
